import Mathlib

set_option maxHeartbeats 1000000
set_option maxRecDepth 10000

/-!
Verification of the snowflake ID generator (src/snowflake/snowflake.rs).

The Rust code is shallowly embedded: the system clock is modelled as an
input stream `List Nat` of raw millisecond readings (`SystemTime::now`
values, i.e. milliseconds since the Unix epoch).  Each call to `time_gen`
consumes one reading from the stream.  `thread::sleep` calls are recorded
as a list of slept durations in the step output.  A call that needs more
clock readings than the stream provides evaluates to `none` (a truncated
trace, covering the possible non-termination of `wait_next_millis`).
Machine integers are modelled as `Nat`/`Int` with explicit `% 2 ^ 64`
where u64/i64 wrap-around matters.
-/

/-- Error type, from `SnowflakeError` (snowflake.rs, lines 62-70).  The
message strings carried by the Rust enum are dropped; only the
constructor is relevant to the claims. -/
inductive SnowflakeError where
  | ClockBackward
  | ConfigError
  | NetworkError
  deriving DecidableEq, Repr

/-- Configuration, from `SnowflakeConfig` (lines 36-49).  The Rust fields
are `u8`, `u8`, `u64`; they are modelled as `Nat`. -/
structure SnowflakeConfig where
  worker_id_bits : Nat
  sequence_bits : Nat
  max_backward_ms : Nat
  deriving DecidableEq, Repr

/-- `impl Default for SnowflakeConfig` (lines 51-59). -/
def SnowflakeConfig.default : SnowflakeConfig :=
  { worker_id_bits := 8, sequence_bits := 12, max_backward_ms := 10 }

/-- Generator state, from `struct SnowflakeIdWorker` (lines 86-104).
`last_timestamp` is an `i64` in Rust and is modelled as `Int`;
the `u64` fields (`sequence_mask`, `twepoch`, `sequence`) and the `u8`
fields (`worker_id` and the shift amounts) are modelled as `Nat`. -/
structure SnowflakeIdWorker where
  config : SnowflakeConfig
  worker_id_shift : Nat
  timestamp_shift : Nat
  sequence_mask : Nat
  twepoch : Nat
  sequence : Nat
  last_timestamp : Int
  worker_id : Nat
  deriving DecidableEq, Repr

/-- The Rust cast `u64 as i64` (two's complement reinterpretation),
used in `next_id` on the result of `time_gen`. -/
def i64ofU64 (n : Nat) : Int :=
  if n < 2 ^ 63 then (n : Int) else (n : Int) - 2 ^ 64

/-- `SnowflakeIdWorker::time_gen` (lines 290-302) applied to one raw
clock reading `r` (milliseconds since the Unix epoch).  The Rust code
truncates `as_millis()` (a `u128`) with `as u64`, then compares with the
fixed epoch `twepoch`: readings at or after the epoch yield the offset,
earlier readings yield a `ConfigError`. -/
def SnowflakeIdWorker.time_gen (w : SnowflakeIdWorker) (r : Nat) :
    Except SnowflakeError Nat :=
  let now_ms := r % 2 ^ 64
  if w.twepoch ≤ now_ms then .ok (now_ms - w.twepoch) else .error .ConfigError

/-- `SnowflakeIdWorker::wait_next_millis` (lines 355-363): re-read the
clock (consuming readings from the stream) until the reading strictly
exceeds `last`; `thread::yield_now` has no observable effect in the
model.  Returns `none` when the stream is exhausted before the loop
exits (a truncated trace). -/
def SnowflakeIdWorker.wait_next_millis (w : SnowflakeIdWorker) (last : Int) :
    List Nat → Option (Except SnowflakeError Int × List Nat)
  | [] => none
  | r :: rs =>
    match w.time_gen r with
    | .error e => some (.error e, rs)
    | .ok t =>
      if i64ofU64 t ≤ last then w.wait_next_millis last rs
      else some (.ok (i64ofU64 t), rs)

deriving instance DecidableEq for Except

/-- Output of one `next_id` call: the returned `Result`, the generator
state after the call, the rest of the clock stream, and the durations
(ms) passed to `thread::sleep` during the call, in order. -/
structure StepOut where
  result : Except SnowflakeError Nat
  worker : SnowflakeIdWorker
  rest : List Nat
  sleeps : List Nat
  deriving DecidableEq, Repr

/-- The ID assembly expression of `next_id` (lines 344-348):
`((timestamp as u64) << timestamp_shift) | ((worker_id as u64) << worker_id_shift) | sequence`,
evaluated in `u64` arithmetic (casts and shifts wrap modulo `2 ^ 64`;
`sequence` is a `u64` field, held below `2 ^ 64` in every reachable state). -/
def SnowflakeIdWorker.assembleId (w : SnowflakeIdWorker) (timestamp : Int) : Nat :=
  ((((timestamp % (2 ^ 64 : Int)).toNat <<< w.timestamp_shift) % 2 ^ 64) |||
    ((w.worker_id <<< w.worker_id_shift) % 2 ^ 64)) ||| w.sequence

/-- The tail of `next_id` after the clock-backward check has resolved
the working `timestamp` (lines 327-350): the same-millisecond sequence
increment, the sequence-exhaustion wait, the new-millisecond sequence
reset, the commit of `last_timestamp`, and the ID assembly.  Field
mutation order matches the Rust code: `sequence` is updated before
`wait_next_millis` is entered, so an error inside the wait leaves the
already-incremented (wrapped-to-zero) sequence behind. -/
def SnowflakeIdWorker.afterClock (w : SnowflakeIdWorker) (timestamp : Int)
    (rs : List Nat) (sleeps : List Nat) : Option StepOut :=
  if timestamp = w.last_timestamp then
    let seq := (w.sequence + 1) &&& w.sequence_mask
    if seq = 0 then
      match SnowflakeIdWorker.wait_next_millis { w with sequence := seq } w.last_timestamp rs with
      | none => none
      | some (.error e, rs2) => some ⟨.error e, { w with sequence := seq }, rs2, sleeps⟩
      | some (.ok ts2, rs2) =>
        some ⟨.ok (SnowflakeIdWorker.assembleId
            { w with sequence := seq, last_timestamp := ts2 } ts2),
          { w with sequence := seq, last_timestamp := ts2 }, rs2, sleeps⟩
    else
      some ⟨.ok (SnowflakeIdWorker.assembleId
          { w with sequence := seq, last_timestamp := timestamp } timestamp),
        { w with sequence := seq, last_timestamp := timestamp }, rs, sleeps⟩
  else
    some ⟨.ok (SnowflakeIdWorker.assembleId
        { w with sequence := 0, last_timestamp := timestamp } timestamp),
      { w with sequence := 0, last_timestamp := timestamp }, rs, sleeps⟩

/-- `SnowflakeIdWorker::next_id` (lines 306-351).  The first clock
reading gives the working timestamp (`time_gen()? as i64`).  If it is
strictly before `last_timestamp`: for a regression within
`max_backward_ms` the thread sleeps `diff + 1` ms and re-reads the clock
once (consuming a second reading), otherwise a `ClockBackward` error is
returned with the state untouched.  `diff` is the Rust cast
`(last_timestamp - timestamp) as u64` of the (release-mode, wrapping)
`i64` subtraction, i.e. the mathematical difference modulo `2 ^ 64`. -/
def SnowflakeIdWorker.next_id (w : SnowflakeIdWorker) :
    List Nat → Option StepOut
  | [] => none
  | r :: rs =>
    match w.time_gen r with
    | .error e => some ⟨.error e, w, rs, []⟩
    | .ok t =>
      let timestamp := i64ofU64 t
      if timestamp < w.last_timestamp then
        let diff := ((w.last_timestamp - timestamp) % (2 ^ 64 : Int)).toNat
        if diff ≤ w.config.max_backward_ms then
          match rs with
          | [] => none
          | r2 :: rs2 =>
            match w.time_gen r2 with
            | .error e => some ⟨.error e, w, rs2, [diff + 1]⟩
            | .ok t2 => w.afterClock (i64ofU64 t2) rs2 [diff + 1]
        else
          some ⟨.error .ClockBackward, w, rs, []⟩
      else
        w.afterClock timestamp rs []

/-- A finite sequence of sequential `next_id` calls on one instance:
`runCalls w rs n` performs up to `n` calls, threading the state and the
clock stream, and returns the per-call trace (each call's `Result`
paired with the state just after that call), the final state, and the
remaining stream.  The run stops early if a call exhausts the stream. -/
def runCalls (w : SnowflakeIdWorker) (rs : List Nat) :
    Nat → List (Except SnowflakeError Nat × SnowflakeIdWorker) × SnowflakeIdWorker × List Nat
  | 0 => ([], w, rs)
  | n + 1 =>
    match w.next_id rs with
    | none => ([], w, rs)
    | some out =>
      let t := runCalls out.worker out.rest n
      ((out.result, out.worker) :: t.1, t.2.1, t.2.2)

/-- The values returned by the `Ok` calls of a trace, in call order. -/
def okIds (tr : List (Except SnowflakeError Nat × SnowflakeIdWorker)) : List Nat :=
  tr.filterMap (fun x => match x.1 with | .ok id => some id | .error _ => none)

/-- Fixed epoch 2025-03-08T00:00:00+08:00 in milliseconds since the Unix
epoch, the value `twepoch` that `SnowflakeIdWorker::new` (lines 126-133)
computes via chrono: `FixedOffset::east_opt(8 * 3600)` succeeds (the
offset is within a day) and `with_ymd_and_hms(2025, 3, 8, 0, 0, 0)` is a
`LocalResult::Single` for a fixed offset, giving
2025-03-07T16:00:00Z = 20154 days plus 16 hours after the Unix epoch. -/
def snowflakeEpochMillis : Nat := 1741363200000

/-- A raw clock reading inside the representable window: at or past the
fixed epoch, and less than `2 ^ 44` ms past it (the timestamp capacity
of the default 44-bit timestamp field; the spec's "69 years"). -/
def InWindow (r : Nat) : Prop :=
  snowflakeEpochMillis ≤ r ∧ r < snowflakeEpochMillis + 2 ^ 44

/-- Well-formedness of a generator state under the default
configuration: the derived shift/mask fields are the ones
`SnowflakeIdWorker::new` computes from `SnowflakeConfig::default`, the
`u8` worker id is in range, and `sequence`/`last_timestamp` satisfy the
reachable-state bounds (`sequence` within the mask, `last_timestamp`
either the initial `-1` or a committed in-window timestamp). -/
def WF (w : SnowflakeIdWorker) : Prop :=
  w.config = SnowflakeConfig.default ∧
  w.worker_id_shift = 12 ∧
  w.timestamp_shift = 20 ∧
  w.sequence_mask = 4095 ∧
  w.twepoch = snowflakeEpochMillis ∧
  w.worker_id < 256 ∧
  w.sequence ≤ 4095 ∧
  (-1 : Int) ≤ w.last_timestamp ∧
  w.last_timestamp < 2 ^ 44

instance (w : SnowflakeIdWorker) : Decidable (WF w) := by
  unfold WF; infer_instance

instance (r : Nat) : Decidable (InWindow r) := by
  unfold InWindow; infer_instance

/-- The pure bit-packing of an ID from its three fields, under the
default configuration (timestamp shift 20, worker-id shift 12). -/
def encodeId (ts wid seq : Nat) : Nat :=
  ((ts <<< 20) ||| (wid <<< 12)) ||| seq

/-- Timestamp field of an ID under the default layout (bits 63-20). -/
def idTimestampField (id : Nat) : Nat := id >>> 20

/-- Sequence field of an ID under the default layout (bits 11-0). -/
def idSequenceField (id : Nat) : Nat := id &&& 4095

/-- A clock stream is benign for one `next_id` call from state `w` when,
in case the call takes the tolerated clock-backward branch (first
reading strictly before `last_timestamp`, regression within
`max_backward_ms`), the re-read after the `diff + 1` ms sleep has caught
up to at least `last_timestamp`.  This is the clock behaviour the sleep
is designed to produce: the regressed clock advances by the slept
`diff + 1` ms, reaching `last_timestamp + 1`. -/
def goodCall (w : SnowflakeIdWorker) : List Nat → Bool
  | [] => true
  | r :: rs =>
    match w.time_gen r with
    | .error _ => true
    | .ok t =>
      if i64ofU64 t < w.last_timestamp then
        if ((w.last_timestamp - i64ofU64 t) % (2 ^ 64 : Int)).toNat ≤ w.config.max_backward_ms then
          match rs with
          | [] => true
          | r2 :: _ =>
            match w.time_gen r2 with
            | .error _ => true
            | .ok t2 => decide (w.last_timestamp ≤ i64ofU64 t2)
        else true
      else true

/-- `goodCall` holding at every call of an `n`-call run. -/
def goodRun (w : SnowflakeIdWorker) (rs : List Nat) : Nat → Bool
  | 0 => true
  | n + 1 =>
    goodCall w rs &&
      match w.next_id rs with
      | none => true
      | some out => goodRun out.worker out.rest n

/-! ### Bit-packing arithmetic -/

/-- Disjoint-bit `lor` is addition: packing `y < 2 ^ k` below `x <<< k`. -/
theorem shiftLeft_lor_eq_add (k x y : Nat) (h : y < 2 ^ k) :
    (x <<< k) ||| y = x * 2 ^ k + y := by
  have hmod : ((x <<< k) ||| y) % 2 ^ k = y := by
    apply Nat.eq_of_testBit_eq
    intro i
    rcases lt_or_le i k with hik | hik
    · simp [Nat.testBit_mod_two_pow, hik, Nat.testBit_lor, Nat.testBit_shiftLeft,
        Nat.not_le.mpr hik]
    · have hy : y.testBit i = false :=
        Nat.testBit_lt_two_pow (lt_of_lt_of_le h (Nat.pow_le_pow_right (by norm_num) hik))
      simp [Nat.testBit_mod_two_pow, Nat.not_lt.mpr hik, hy]
  have hdiv : ((x <<< k) ||| y) / 2 ^ k = x := by
    have hsr : ((x <<< k) ||| y) >>> k = x := by
      apply Nat.eq_of_testBit_eq
      intro i
      have hy : y.testBit (k + i) = false :=
        Nat.testBit_lt_two_pow (lt_of_lt_of_le h (Nat.pow_le_pow_right (by norm_num) (Nat.le_add_right _ _)))
      simp [Nat.testBit_shiftRight, Nat.testBit_lor, Nat.testBit_shiftLeft, hy,
        Nat.add_sub_cancel_left]
    rw [← Nat.shiftRight_eq_div_pow]
    exact hsr
  have := Nat.div_add_mod ((x <<< k) ||| y) (2 ^ k)
  rw [hdiv, hmod] at this
  rw [Nat.mul_comm] at this
  omega

/-- `encodeId` as plain arithmetic, for in-range worker id and sequence. -/
theorem encodeId_eq_add (ts wid seq : Nat) (hw : wid < 256) (hs : seq ≤ 4095) :
    encodeId ts wid seq = ts * 2 ^ 20 + wid * 2 ^ 12 + seq := by
  unfold encodeId
  rw [Nat.or_assoc]
  have h1 : (wid <<< 12) ||| seq = wid * 2 ^ 12 + seq :=
    shiftLeft_lor_eq_add 12 wid seq (by omega)
  rw [h1, shiftLeft_lor_eq_add 20 ts _ (by omega)]
  ring

/-- The timestamp field (bits 63-20) of an encoded ID. -/
theorem idTimestampField_encode (ts wid seq : Nat) (hw : wid < 256) (hs : seq ≤ 4095) :
    idTimestampField (encodeId ts wid seq) = ts := by
  unfold idTimestampField
  rw [encodeId_eq_add ts wid seq hw hs, Nat.shiftRight_eq_div_pow]
  omega

/-- The sequence field (bits 11-0) of an encoded ID. -/
theorem idSequenceField_encode (ts wid seq : Nat) (hw : wid < 256) (hs : seq ≤ 4095) :
    idSequenceField (encodeId ts wid seq) = seq := by
  unfold idSequenceField
  rw [encodeId_eq_add ts wid seq hw hs]
  have h : (4095 : Nat) = 2 ^ 12 - 1 := by norm_num
  rw [h, Nat.and_pow_two_sub_one_eq_mod]
  omega

/-- `encodeId` is strictly monotone in the lexicographic (timestamp,
sequence) key, for a fixed in-range worker id. -/
theorem encodeId_lt_encodeId (ts1 seq1 ts2 seq2 wid : Nat) (hw : wid < 256)
    (hs1 : seq1 ≤ 4095) (hs2 : seq2 ≤ 4095)
    (hkey : ts1 < ts2 ∨ (ts1 = ts2 ∧ seq1 < seq2)) :
    encodeId ts1 wid seq1 < encodeId ts2 wid seq2 := by
  rw [encodeId_eq_add ts1 wid seq1 hw hs1, encodeId_eq_add ts2 wid seq2 hw hs2]
  have e20 : (2 : Nat) ^ 20 = 1048576 := by norm_num
  have e12 : (2 : Nat) ^ 12 = 4096 := by norm_num
  rw [e20, e12]
  rcases hkey with h | ⟨h, h2⟩
  · omega
  · subst h; omega

/-- `assembleId` reduces to `encodeId` for a default-shape worker and an
in-window timestamp (all the `u64` wrap-arounds are inert). -/
theorem assembleId_eq_encodeId (w : SnowflakeIdWorker) (ts : Int)
    (hsh : w.timestamp_shift = 20) (hws : w.worker_id_shift = 12)
    (hwid : w.worker_id < 256) (hseq : w.sequence ≤ 4095)
    (h0 : 0 ≤ ts) (hlt : ts < 2 ^ 44) :
    w.assembleId ts = encodeId ts.toNat w.worker_id w.sequence := by
  unfold SnowflakeIdWorker.assembleId encodeId
  rw [hsh, hws]
  have hm : ts % (2 ^ 64 : Int) = ts := Int.emod_eq_of_lt h0 (by omega)
  rw [hm]
  have hts : ts.toNat < 2 ^ 44 := by omega
  have e20 : (2 : Nat) ^ 20 = 1048576 := by norm_num
  have e12 : (2 : Nat) ^ 12 = 4096 := by norm_num
  have e44 : (2 : Nat) ^ 44 = 17592186044416 := by norm_num
  have e64 : (2 : Nat) ^ 64 = 18446744073709551616 := by norm_num
  have h1 : ts.toNat <<< 20 % 2 ^ 64 = ts.toNat <<< 20 := by
    apply Nat.mod_eq_of_lt
    rw [Nat.shiftLeft_eq, e20, e64]
    rw [e44] at hts
    omega
  have h2 : w.worker_id <<< 12 % 2 ^ 64 = w.worker_id <<< 12 := by
    apply Nat.mod_eq_of_lt
    rw [Nat.shiftLeft_eq, e12, e64]
    omega
  rw [h1, h2]

/-! ### Per-call behaviour of the state machine -/

/-- Strict lexicographic order on the (last_timestamp, sequence) key of
two generator states.  Each successful call strictly advances this key,
which is what makes the generated IDs distinct. -/
def keyLt (w1 w2 : SnowflakeIdWorker) : Prop :=
  w1.last_timestamp < w2.last_timestamp ∨
    (w1.last_timestamp = w2.last_timestamp ∧ w1.sequence < w2.sequence)

/-- Lower bound carried through a run: `-1` before the first success,
afterwards the ID encoding the state's committed key. -/
def lbVal (w : SnowflakeIdWorker) : Int :=
  if w.last_timestamp < 0 then -1
  else encodeId w.last_timestamp.toNat w.worker_id w.sequence

/-- The `u64` sequence increment `(sequence + 1) & sequence_mask` under
the default mask. -/
theorem seq_incr (s : Nat) (hs : s ≤ 4095) :
    (s + 1) &&& 4095 = if s = 4095 then 0 else s + 1 := by
  have h : (4095 : Nat) = 2 ^ 12 - 1 := by norm_num
  rw [h, Nat.and_pow_two_sub_one_eq_mod]
  have h2 : (2 : Nat) ^ 12 = 4096 := by norm_num
  rw [h2]
  rcases eq_or_ne s 4095 with h1 | h1
  · simp [h1]
  · rw [if_neg h1]
    omega

/-- `time_gen` on an in-window reading: no error, and the returned
offset is small enough that the `u64 → i64` cast is the identity. -/
theorem time_gen_window (w : SnowflakeIdWorker) (r : Nat)
    (htw : w.twepoch = snowflakeEpochMillis) (h : InWindow r) :
    w.time_gen r = .ok (r - snowflakeEpochMillis) ∧
    r - snowflakeEpochMillis < 2 ^ 44 ∧
    i64ofU64 (r - snowflakeEpochMillis) = ((r - snowflakeEpochMillis : Nat) : Int) := by
  obtain ⟨h1, h2⟩ := h
  have hsmall : r < 2 ^ 64 := by
    unfold snowflakeEpochMillis at h2
    omega
  have hmod : r % 2 ^ 64 = r := Nat.mod_eq_of_lt hsmall
  refine ⟨?_, by omega, ?_⟩
  · unfold SnowflakeIdWorker.time_gen
    simp only [hmod, htw, if_pos h1]
  · unfold i64ofU64
    rw [if_pos (by omega)]

/-- `wait_next_millis` on an in-window stream: if it terminates within
the trace it returns (on a suffix of the stream) a timestamp strictly
above `last` and inside the 44-bit window; it cannot error. -/
theorem wait_next_millis_spec (w : SnowflakeIdWorker) (last : Int)
    (htw : w.twepoch = snowflakeEpochMillis) :
    ∀ (rs : List Nat), (∀ r ∈ rs, InWindow r) →
    ∀ (res : Except SnowflakeError Int) (rs2 : List Nat),
    w.wait_next_millis last rs = some (res, rs2) →
    List.IsSuffix rs2 rs ∧
      ∃ ts2, res = .ok ts2 ∧ last < ts2 ∧ 0 ≤ ts2 ∧ ts2 < 2 ^ 44 := by
  intro rs
  induction rs with
  | nil =>
    intro _ res rs2 hstep
    simp [SnowflakeIdWorker.wait_next_millis] at hstep
  | cons r rs ih =>
    intro hwin res rs2 hstep
    obtain ⟨htg, hlt44, hcast⟩ :=
      time_gen_window w r htw (hwin r (List.mem_cons_self r rs))
    rw [SnowflakeIdWorker.wait_next_millis, htg] at hstep
    simp only at hstep
    split at hstep
    · obtain ⟨hsuf, hres⟩ := ih (fun x hx => hwin x (List.mem_cons_of_mem r hx)) res rs2 hstep
      exact ⟨hsuf.trans (List.suffix_cons r rs), hres⟩
    · rename_i hgt
      injection hstep with hpair
      injection hpair with hres hrest
      subst hres; subst hrest
      refine ⟨List.suffix_cons r rs, ⟨i64ofU64 (r - snowflakeEpochMillis), rfl, by omega, ?_, ?_⟩⟩
      · rw [hcast]; omega
      · rw [hcast]; exact_mod_cast hlt44

/-- The sequence/commit phase of `next_id`, entered with a resolved
working timestamp at or above `last_timestamp` (the situation every
caught-up call is in): it always succeeds, strictly advances the
(last_timestamp, sequence) key, keeps the identity and configuration
fields, and returns exactly the ID packing the newly committed key. -/
theorem afterClock_spec (w : SnowflakeIdWorker) (timestamp : Int) (rs sleeps : List Nat)
    (hWF : WF w) (hwin : ∀ r ∈ rs, InWindow r)
    (hge : w.last_timestamp ≤ timestamp) (h0 : 0 ≤ timestamp) (hlt : timestamp < 2 ^ 44)
    (out : StepOut) (hstep : w.afterClock timestamp rs sleeps = some out) :
    WF out.worker ∧ out.worker.worker_id = w.worker_id ∧
    out.worker.config = w.config ∧ List.IsSuffix out.rest rs ∧
    keyLt w out.worker ∧ 0 ≤ out.worker.last_timestamp ∧
    out.result = .ok (encodeId out.worker.last_timestamp.toNat w.worker_id out.worker.sequence) := by
  obtain ⟨hcfg, hws, hts, hmask, htw, hwid, hseq, hlast0, hlast44⟩ := hWF
  unfold SnowflakeIdWorker.afterClock at hstep
  rw [hmask, seq_incr w.sequence hseq] at hstep
  by_cases heq : timestamp = w.last_timestamp
  · rw [if_pos heq] at hstep
    by_cases hs : w.sequence = 4095
    · rw [if_pos hs, if_pos rfl] at hstep
      split at hstep
      · exact Option.noConfusion hstep
      · rename_i e rs2 hwait
        obtain ⟨hsuf, ts2x, hres, _⟩ :=
          wait_next_millis_spec { w with sequence := 0, sequence_mask := 4095 }
            w.last_timestamp htw rs hwin (.error e) rs2 (by exact hwait)
        exact absurd hres (by simp)
      · rename_i ts2 rs2 hwait
        obtain ⟨hsuf, ts2x, hres, hgt, hts0, hts44⟩ :=
          wait_next_millis_spec { w with sequence := 0, sequence_mask := 4095 }
            w.last_timestamp htw rs hwin (.ok ts2) rs2 (by exact hwait)
        injection hres with hres
        subst hres
        simp only [Option.some.injEq] at hstep
        subst hstep
        refine ⟨⟨hcfg, hws, hts, rfl, htw, hwid, by exact Nat.zero_le 4095,
            by exact le_trans (by norm_num) hts0, by exact hts44⟩,
          rfl, rfl, hsuf, Or.inl (by exact hgt), by exact hts0, ?_⟩
        exact congrArg Except.ok
          (assembleId_eq_encodeId _ ts2 hts hws hwid (by exact Nat.zero_le 4095) hts0 hts44)
    · rw [if_neg hs, if_neg (Nat.succ_ne_zero w.sequence)] at hstep
      simp only [Option.some.injEq] at hstep
      subst hstep
      have hsle : w.sequence + 1 ≤ 4095 := Nat.succ_le_of_lt (lt_of_le_of_ne hseq hs)
      refine ⟨⟨hcfg, hws, hts, rfl, htw, hwid, by exact hsle,
          by exact le_trans (by norm_num) h0, by exact hlt⟩,
        rfl, rfl, List.suffix_refl rs, Or.inr ⟨by exact heq.symm, by exact Nat.lt_succ_self _⟩,
        by exact h0, ?_⟩
      exact congrArg Except.ok
        (assembleId_eq_encodeId _ timestamp hts hws hwid (by exact hsle) h0 hlt)
  · rw [if_neg heq] at hstep
    simp only [Option.some.injEq] at hstep
    subst hstep
    have hgt : w.last_timestamp < timestamp := lt_of_le_of_ne hge (fun h => heq h.symm)
    refine ⟨⟨hcfg, hws, hts, rfl, htw, hwid, by exact Nat.zero_le 4095,
        by exact le_trans (by norm_num) h0, by exact hlt⟩,
      rfl, rfl, List.suffix_refl rs, Or.inl (by exact hgt), by exact h0, ?_⟩
    exact congrArg Except.ok
      (assembleId_eq_encodeId _ timestamp hts hws hwid (by exact Nat.zero_le 4095) h0 hlt)

/-- One `next_id` call on a well-formed default-configuration state,
with in-window clock readings and a benign stream (`goodCall`): the
call either fails with the state left completely unchanged, or succeeds
with a strictly larger (last_timestamp, sequence) key and returns the
ID packing the new key.  Identity and configuration are preserved and
the stream is consumed from the front. -/
theorem next_id_spec (w : SnowflakeIdWorker) (rs : List Nat)
    (hWF : WF w) (hwin : ∀ r ∈ rs, InWindow r) (hgood : goodCall w rs = true)
    (out : StepOut) (hstep : w.next_id rs = some out) :
    WF out.worker ∧ out.worker.worker_id = w.worker_id ∧
    out.worker.config = w.config ∧ List.IsSuffix out.rest rs ∧
    ((∃ e, out.result = .error e) ∧ out.worker = w ∨
      keyLt w out.worker ∧ 0 ≤ out.worker.last_timestamp ∧
        out.result = .ok (encodeId out.worker.last_timestamp.toNat w.worker_id out.worker.sequence)) := by
  obtain ⟨hcfg, hws, hts, hmask, htw, hwid, hseq, hlast0, hlast44⟩ := id hWF
  cases rs with
  | nil => exact Option.noConfusion hstep
  | cons r rs' =>
    obtain ⟨htg, hlt44, hcast⟩ := time_gen_window w r htw (hwin r (List.mem_cons_self r rs'))
    rw [SnowflakeIdWorker.next_id, htg] at hstep
    simp only [goodCall.eq_def, htg] at hgood
    simp only [hcast] at hstep hgood
    by_cases hbk : ((r - snowflakeEpochMillis : Nat) : Int) < w.last_timestamp
    · rw [if_pos hbk] at hstep hgood
      have hdm : (w.last_timestamp - ((r - snowflakeEpochMillis : Nat) : Int)) % (2 ^ 64 : Int) =
          w.last_timestamp - ((r - snowflakeEpochMillis : Nat) : Int) := by
        apply Int.emod_eq_of_lt
        · omega
        · omega
      rw [hdm] at hstep hgood
      by_cases hd : (w.last_timestamp - ((r - snowflakeEpochMillis : Nat) : Int)).toNat ≤
          w.config.max_backward_ms
      · rw [if_pos hd] at hstep hgood
        cases rs' with
        | nil => exact Option.noConfusion hstep
        | cons r2 rs2 =>
          obtain ⟨htg2, hlt44b, hcast2⟩ :=
            time_gen_window w r2 htw (hwin r2 (List.mem_cons_of_mem r (List.mem_cons_self r2 rs2)))
          simp only [htg2, hcast2] at hstep hgood
          have hge : w.last_timestamp ≤ ((r2 - snowflakeEpochMillis : Nat) : Int) :=
            of_decide_eq_true hgood
          obtain ⟨hA, hB, hC, hD, hE, hF, hG⟩ :=
            afterClock_spec w _ rs2 _ hWF
              (fun x hx => hwin x (List.mem_cons_of_mem r (List.mem_cons_of_mem r2 hx)))
              hge (Int.natCast_nonneg _) (by exact_mod_cast hlt44b) out hstep
          exact ⟨hA, hB, hC,
            hD.trans ((List.suffix_cons r2 rs2).trans (List.suffix_cons r (r2 :: rs2))),
            Or.inr ⟨hE, hF, hG⟩⟩
      · rw [if_neg hd] at hstep
        simp only [Option.some.injEq] at hstep
        subst hstep
        exact ⟨hWF, rfl, rfl, List.suffix_cons r rs',
          Or.inl ⟨⟨.ClockBackward, rfl⟩, rfl⟩⟩
    · rw [if_neg hbk] at hstep
      have hge : w.last_timestamp ≤ ((r - snowflakeEpochMillis : Nat) : Int) := not_lt.mp hbk
      obtain ⟨hA, hB, hC, hD, hE, hF, hG⟩ :=
        afterClock_spec w _ rs' _ hWF
          (fun x hx => hwin x (List.mem_cons_of_mem r hx))
          hge (Int.natCast_nonneg _) (by exact_mod_cast hlt44) out hstep
      exact ⟨hA, hB, hC, hD.trans (List.suffix_cons r rs'), Or.inr ⟨hE, hF, hG⟩⟩

/-- Advancing the key strictly advances the packed ID: the ID encoding
the key of the post-call state is strictly above the running lower
bound of the pre-call state. -/
theorem lbVal_lt_encode (w w' : SnowflakeIdWorker) (hWF : WF w) (hWF' : WF w')
    (hk : keyLt w w') (h0 : 0 ≤ w'.last_timestamp) :
    lbVal w < ((encodeId w'.last_timestamp.toNat w.worker_id w'.sequence : Nat) : Int) := by
  obtain ⟨_, _, _, _, _, hwid, hseq, hlast0, hlast44⟩ := hWF
  obtain ⟨_, _, _, _, _, _, hseq', _, _⟩ := hWF'
  unfold lbVal
  by_cases hneg : w.last_timestamp < 0
  · rw [if_pos hneg]
    have : (0 : Int) ≤ ((encodeId w'.last_timestamp.toNat w.worker_id w'.sequence : Nat) : Int) :=
      Int.natCast_nonneg _
    omega
  · rw [if_neg hneg]
    have hlt : encodeId w.last_timestamp.toNat w.worker_id w.sequence <
        encodeId w'.last_timestamp.toNat w.worker_id w'.sequence := by
      apply encodeId_lt_encodeId _ _ _ _ _ hwid hseq hseq'
      rcases hk with h | ⟨h, h2⟩
      · left; omega
      · right; exact ⟨by omega, h2⟩
    exact_mod_cast hlt

/-- After a successful call the lower bound is exactly the returned ID. -/
theorem lbVal_eq_encode (w' : SnowflakeIdWorker) (wid : Nat) (hwid : w'.worker_id = wid)
    (h0 : 0 ≤ w'.last_timestamp) :
    lbVal w' = ((encodeId w'.last_timestamp.toNat wid w'.sequence : Nat) : Int) := by
  unfold lbVal
  rw [if_neg (not_lt.mpr h0), hwid]

/-- Invariant of a finite run of sequential `next_id` calls on a
well-formed default-configuration instance, over an in-window benign
clock stream: well-formedness and the worker identity are preserved,
`last_timestamp` never decreases (also across failed calls), the
successful calls return strictly increasing IDs, and every returned ID
is strictly above the starting state's lower bound. -/
theorem runCalls_spec : ∀ (n : Nat) (w : SnowflakeIdWorker) (rs : List Nat),
    WF w → (∀ r ∈ rs, InWindow r) → goodRun w rs n = true →
    WF (runCalls w rs n).2.1 ∧
    (runCalls w rs n).2.1.worker_id = w.worker_id ∧
    w.last_timestamp ≤ (runCalls w rs n).2.1.last_timestamp ∧
    List.Chain' (fun a b => a < b) (okIds (runCalls w rs n).1) ∧
    (∀ id ∈ okIds (runCalls w rs n).1, lbVal w < (id : Int)) ∧
    List.Chain' (fun w1 w2 => w1.last_timestamp ≤ w2.last_timestamp)
      (w :: (runCalls w rs n).1.map Prod.snd) := by
  intro n
  induction n with
  | zero =>
    intro w rs hWF hwin hgood
    exact ⟨hWF, rfl, le_refl _, by simp [runCalls, okIds], by simp [runCalls, okIds],
      by simp [runCalls]⟩
  | succ n ih =>
    intro w rs hWF hwin hgood
    cases hnx : w.next_id rs with
    | none =>
      have hr : runCalls w rs (n + 1) = ([], w, rs) := by simp [runCalls, hnx]
      rw [hr]
      exact ⟨hWF, rfl, le_refl _, by simp [okIds], by simp [okIds], by simp⟩
    | some out =>
      simp only [runCalls, hnx]
      simp only [goodRun, hnx, Bool.and_eq_true] at hgood
      obtain ⟨hgc, hgr⟩ := hgood
      obtain ⟨hA, hB, hC, hD, hE⟩ := next_id_spec w rs hWF hwin hgc out hnx
      have hwin' : ∀ r ∈ out.rest, InWindow r := fun r hr => hwin r (hD.subset hr)
      obtain ⟨iA, iB, iC, iD, iE, iF⟩ := ih out.worker out.rest hA hwin' hgr
      rcases hE with ⟨⟨e, hres⟩, hw⟩ | ⟨hk, h0, hres⟩
      · have hle : w.last_timestamp ≤ out.worker.last_timestamp := by rw [hw]
        refine ⟨iA, iB.trans hB, le_trans hle iC, ?_, ?_, ?_⟩
        · simp only [okIds, List.filterMap_cons, hres]
          simpa [okIds] using iD
        · simp only [okIds, List.filterMap_cons, hres]
          have hlbeq : lbVal out.worker = lbVal w := by rw [hw]
          rw [← hlbeq]
          simpa [okIds] using iE
        · simp only [List.map_cons]
          exact List.chain'_cons.mpr ⟨hle, by simpa using iF⟩
      · have hle : w.last_timestamp ≤ out.worker.last_timestamp := by
          rcases hk with h | ⟨h, _⟩
          · exact le_of_lt h
          · exact le_of_eq h
        have hlb : lbVal out.worker =
            ((encodeId out.worker.last_timestamp.toNat w.worker_id out.worker.sequence : Nat) : Int) :=
          lbVal_eq_encode out.worker w.worker_id hB h0
        refine ⟨iA, iB.trans hB, le_trans hle iC, ?_, ?_, ?_⟩
        · simp only [okIds, List.filterMap_cons, hres]
          apply List.chain'_cons'.mpr
          refine ⟨?_, by simpa [okIds] using iD⟩
          intro y hy
          have hym : y ∈ okIds (runCalls out.worker out.rest n).1 := by
            simp only [okIds]
            exact List.mem_of_mem_head? hy
          have := iE y hym
          rw [hlb] at this
          exact_mod_cast this
        · simp only [okIds, List.filterMap_cons, hres]
          intro id hid
          rcases List.mem_cons.mp hid with h | h
          · subst h
            exact lbVal_lt_encode w out.worker hWF hA hk h0
          · have hym : id ∈ okIds (runCalls out.worker out.rest n).1 := by
              simp only [okIds]; exact h
            have h2 := iE id hym
            have h1 : lbVal w <
                ((encodeId out.worker.last_timestamp.toNat w.worker_id out.worker.sequence : Nat) : Int) :=
              lbVal_lt_encode w out.worker hWF hA hk h0
            rw [hlb] at h2
            omega
        · simp only [List.map_cons]
          exact List.chain'_cons.mpr ⟨hle, by simpa using iF⟩

/-! ### Exact-form step lemmas -/

/-- A call whose clock reading (offset `d` from the epoch) is strictly
ahead of `last_timestamp`: the sequence resets to 0, `d` is committed,
and the call returns the ID `(d, worker_id, 0)` with no sleeping and
exactly one reading consumed. -/
theorem next_id_new_ms (w : SnowflakeIdWorker) (d : Nat) (rs : List Nat)
    (hws : w.worker_id_shift = 12) (hts : w.timestamp_shift = 20)
    (htw : w.twepoch = snowflakeEpochMillis) (hwid : w.worker_id < 256)
    (hlast : w.last_timestamp < (d : Int)) (hd : d < 2 ^ 44) :
    w.next_id ((snowflakeEpochMillis + d) :: rs) =
      some ⟨.ok (encodeId d w.worker_id 0),
        { w with sequence := 0, last_timestamp := (d : Int) }, rs, []⟩ := by
  have hwin : InWindow (snowflakeEpochMillis + d) := ⟨Nat.le_add_right _ _, Nat.add_lt_add_left hd _⟩
  obtain ⟨htg, _, hcast⟩ := time_gen_window w _ htw hwin
  have hsub : snowflakeEpochMillis + d - snowflakeEpochMillis = d := Nat.add_sub_cancel_left _ _
  rw [hsub] at htg hcast
  rw [SnowflakeIdWorker.next_id]
  simp only [htg, hcast]
  rw [if_neg (by omega)]
  unfold SnowflakeIdWorker.afterClock
  rw [if_neg (by omega)]
  simp only [Option.some.injEq, StepOut.mk.injEq, Except.ok.injEq, and_true, true_and]
  exact assembleId_eq_encodeId { w with sequence := 0, last_timestamp := (d : Int) } (d : Int)
    hts hws hwid (Nat.zero_le _) (Int.natCast_nonneg _) (by exact_mod_cast hd)

/-- A call whose clock reading repeats the committed millisecond while
the sequence is not yet exhausted: the sequence increments by one and
the call returns the ID `(d, worker_id, sequence + 1)`, consuming one
reading and not sleeping. -/
theorem next_id_same_ms (w : SnowflakeIdWorker) (d : Nat) (rs : List Nat)
    (hws : w.worker_id_shift = 12) (hts : w.timestamp_shift = 20)
    (hmask : w.sequence_mask = 4095) (htw : w.twepoch = snowflakeEpochMillis)
    (hwid : w.worker_id < 256) (hlast : w.last_timestamp = (d : Int))
    (hd : d < 2 ^ 44) (hs : w.sequence + 1 ≤ 4095) :
    w.next_id ((snowflakeEpochMillis + d) :: rs) =
      some ⟨.ok (encodeId d w.worker_id (w.sequence + 1)),
        { w with sequence := w.sequence + 1, last_timestamp := (d : Int) }, rs, []⟩ := by
  have hwin : InWindow (snowflakeEpochMillis + d) := ⟨Nat.le_add_right _ _, Nat.add_lt_add_left hd _⟩
  obtain ⟨htg, _, hcast⟩ := time_gen_window w _ htw hwin
  have hsub : snowflakeEpochMillis + d - snowflakeEpochMillis = d := Nat.add_sub_cancel_left _ _
  rw [hsub] at htg hcast
  rw [SnowflakeIdWorker.next_id]
  simp only [htg, hcast]
  rw [if_neg (by omega)]
  unfold SnowflakeIdWorker.afterClock
  rw [if_pos (by omega), hmask, seq_incr w.sequence (by omega),
    if_neg (by omega : ¬ w.sequence = 4095), if_neg (by omega : ¬ w.sequence + 1 = 0)]
  simp only [Option.some.injEq, StepOut.mk.injEq, Except.ok.injEq, and_true, true_and]
  exact assembleId_eq_encodeId
    { w with sequence := w.sequence + 1, last_timestamp := ((d : Nat) : Int) } ((d : Nat) : Int)
    hts hws hwid (by exact hs) (Int.natCast_nonneg _) (by exact_mod_cast hd)
/-- A call whose clock reading repeats the committed millisecond with
the sequence exhausted (4095): the sequence wraps to 0, the call spins
in `wait_next_millis`, consumes the next reading `d2 > d`, commits it,
and returns the ID `(d2, worker_id, 0)`. -/
theorem next_id_wrap (w : SnowflakeIdWorker) (d d2 : Nat) (rs : List Nat)
    (hws : w.worker_id_shift = 12) (hts : w.timestamp_shift = 20)
    (hmask : w.sequence_mask = 4095) (htw : w.twepoch = snowflakeEpochMillis)
    (hwid : w.worker_id < 256) (hlast : w.last_timestamp = (d : Int))
    (hseq : w.sequence = 4095) (hdd : d < d2) (hd2 : d2 < 2 ^ 44) :
    w.next_id ((snowflakeEpochMillis + d) :: (snowflakeEpochMillis + d2) :: rs) =
      some ⟨.ok (encodeId d2 w.worker_id 0),
        { w with sequence := 0, last_timestamp := (d2 : Int) }, rs, []⟩ := by
  have hwin : InWindow (snowflakeEpochMillis + d) := ⟨Nat.le_add_right _ _, Nat.add_lt_add_left (lt_trans hdd hd2) _⟩
  have hwin2 : InWindow (snowflakeEpochMillis + d2) := ⟨Nat.le_add_right _ _, Nat.add_lt_add_left hd2 _⟩
  obtain ⟨htg, _, hcast⟩ := time_gen_window w _ htw hwin
  obtain ⟨htg2, _, hcast2⟩ :=
    time_gen_window { w with sequence := 0, sequence_mask := 4095 } _ (by exact htw) hwin2
  have hsub : snowflakeEpochMillis + d - snowflakeEpochMillis = d := Nat.add_sub_cancel_left _ _
  have hsub2 : snowflakeEpochMillis + d2 - snowflakeEpochMillis = d2 := Nat.add_sub_cancel_left _ _
  rw [hsub] at htg hcast
  rw [hsub2] at htg2 hcast2
  rw [SnowflakeIdWorker.next_id]
  simp only [htg, hcast]
  rw [if_neg (by omega)]
  unfold SnowflakeIdWorker.afterClock
  rw [if_pos (by omega), hmask, seq_incr w.sequence (by omega), if_pos hseq, if_pos rfl]
  rw [SnowflakeIdWorker.wait_next_millis]
  simp only [htg2, hcast2]
  rw [if_neg (by omega : ¬ ((d2 : Int) ≤ w.last_timestamp))]
  simp only [Option.some.injEq, StepOut.mk.injEq, Except.ok.injEq, and_true, true_and]
  exact assembleId_eq_encodeId { w with sequence := 0, last_timestamp := (d2 : Int) } (d2 : Int)
    hts hws hwid (Nat.zero_le _) (Int.natCast_nonneg _) (by exact_mod_cast hd2)

/-- Unfolding one successful call at the head of a run. -/
theorem runCalls_cons (w : SnowflakeIdWorker) (rs : List Nat) (n : Nat) (out : StepOut)
    (h : w.next_id rs = some out) :
    runCalls w rs (n + 1) =
      ((out.result, out.worker) :: (runCalls out.worker out.rest n).1,
        (runCalls out.worker out.rest n).2.1, (runCalls out.worker out.rest n).2.2) := by
  simp [runCalls, h]

/-- A burst of `k` same-millisecond calls (clock frozen at offset `d`,
sequence not exhausted): the calls return the IDs with sequence fields
`sequence + 1, ..., sequence + k` in order, and the run continues on the
remaining stream with the sequence advanced by `k`. -/
theorem runCalls_same_ms (k : Nat) :
    ∀ (m : Nat) (w : SnowflakeIdWorker) (d : Nat) (rs : List Nat),
    w.worker_id_shift = 12 → w.timestamp_shift = 20 → w.sequence_mask = 4095 →
    w.twepoch = snowflakeEpochMillis → w.worker_id < 256 →
    w.last_timestamp = (d : Int) → d < 2 ^ 44 → w.sequence + k ≤ 4095 →
    runCalls w (List.replicate k (snowflakeEpochMillis + d) ++ rs) (k + m) =
      ((List.range k).map (fun j =>
          (Except.ok (encodeId d w.worker_id (w.sequence + j + 1)),
            { w with sequence := w.sequence + j + 1, last_timestamp := (d : Int) })) ++
        (runCalls { w with sequence := w.sequence + k, last_timestamp := (d : Int) } rs m).1,
       (runCalls { w with sequence := w.sequence + k, last_timestamp := (d : Int) } rs m).2) := by
  induction k with
  | zero =>
    intro m w d rs hws hts hmask htw hwid hlast hd hk
    obtain ⟨cfg, ws, ts, mask, tw, seq, last, wid⟩ := w
    simp only at hlast
    subst hlast
    simp [Nat.zero_add]
  | succ k ih =>
    intro m w d rs hws hts hmask htw hwid hlast hd hk
    obtain ⟨cfg, ws, ts, mask, tw, seq, last, wid⟩ := w
    simp only at hws hts hmask htw hwid hlast hk
    subst hlast
    have hstep := next_id_same_ms ⟨cfg, ws, ts, mask, tw, seq, ((d : Nat) : Int), wid⟩ d
      (List.replicate k (snowflakeEpochMillis + d) ++ rs)
      hws hts hmask htw hwid rfl hd (by show seq + 1 ≤ 4095; omega)
    rw [List.replicate_succ, List.cons_append, Nat.succ_add,
      runCalls_cons _ _ _ _ hstep]
    dsimp only
    rw [ih m ⟨cfg, ws, ts, mask, tw, seq + 1, ((d : Nat) : Int), wid⟩ d rs
      hws hts hmask htw hwid rfl hd (by show seq + 1 + k ≤ 4095; omega)]
    dsimp only
    rw [List.range_succ_eq_map, List.map_cons, List.map_map]
    simp only [List.cons_append]
    have hse : seq + 1 + k = seq + (k + 1) := by omega
    rw [hse]
    refine congrArg (fun l => (_ :: l, _)) ?_
    refine congrArg (fun l => l ++ _) ?_
    apply List.map_congr_left
    intro j hj
    have hje : seq + 1 + j + 1 = seq + (j + 1) + 1 := by omega
    simp only [Function.comp_apply, hje]

/-! ### Assembly formula (no well-formedness assumptions) -/

/-- Whenever `afterClock` returns `Ok id`, `id` is exactly the assembly
expression applied to the committed state, and identity, configuration
and shift fields are untouched. -/
theorem afterClock_ok_assemble (w : SnowflakeIdWorker) (tstamp : Int) (rs sleeps : List Nat)
    (out : StepOut) (hstep : w.afterClock tstamp rs sleeps = some out) (id : Nat)
    (hok : out.result = .ok id) :
    id = out.worker.assembleId out.worker.last_timestamp ∧
    out.worker.config = w.config ∧ out.worker.worker_id = w.worker_id ∧
    out.worker.timestamp_shift = w.timestamp_shift ∧
    out.worker.worker_id_shift = w.worker_id_shift := by
  unfold SnowflakeIdWorker.afterClock at hstep
  split at hstep
  · dsimp only at hstep
    split at hstep
    · split at hstep
      · exact Option.noConfusion hstep
      · simp only [Option.some.injEq] at hstep
        subst hstep
        simp at hok
      · simp only [Option.some.injEq] at hstep
        subst hstep
        simp only [StepOut.result, Except.ok.injEq] at hok
        exact ⟨hok.symm, rfl, rfl, rfl, rfl⟩
    · simp only [Option.some.injEq] at hstep
      subst hstep
      simp only [StepOut.result, Except.ok.injEq] at hok
      exact ⟨hok.symm, rfl, rfl, rfl, rfl⟩
  · simp only [Option.some.injEq] at hstep
    subst hstep
    simp only [StepOut.result, Except.ok.injEq] at hok
    exact ⟨hok.symm, rfl, rfl, rfl, rfl⟩

/-- Whenever `next_id` returns `Ok id`, `id` is exactly the assembly
expression applied to the committed state. -/
theorem next_id_ok_assemble (w : SnowflakeIdWorker) (rs : List Nat) (out : StepOut)
    (hstep : w.next_id rs = some out) (id : Nat) (hok : out.result = .ok id) :
    id = out.worker.assembleId out.worker.last_timestamp ∧
    out.worker.config = w.config ∧ out.worker.worker_id = w.worker_id ∧
    out.worker.timestamp_shift = w.timestamp_shift ∧
    out.worker.worker_id_shift = w.worker_id_shift := by
  cases rs with
  | nil => exact Option.noConfusion hstep
  | cons r rs' =>
    rw [SnowflakeIdWorker.next_id] at hstep
    cases htg : w.time_gen r with
    | error e =>
      simp only [htg, Option.some.injEq] at hstep
      subst hstep
      simp at hok
    | ok t =>
      simp only [htg] at hstep
      split at hstep
      · split at hstep
        · cases rs' with
          | nil => exact Option.noConfusion hstep
          | cons r2 rs2 =>
            cases htg2 : w.time_gen r2 with
            | error e =>
              simp only [htg2, Option.some.injEq] at hstep
              subst hstep
              simp at hok
            | ok t2 =>
              simp only [htg2] at hstep
              exact afterClock_ok_assemble w _ _ _ out hstep id hok
        · simp only [Option.some.injEq] at hstep
          subst hstep
          simp at hok
      · exact afterClock_ok_assemble w _ _ _ out hstep id hok

/-! ### Claim theorems -/

/-- A freshly constructed default-configuration instance with worker
id 7 (the state `SnowflakeIdWorker::new` produces when identity
resolution yields 7): derived fields as computed by `new`, sequence 0,
`last_timestamp = -1`. -/
def demoWorker : SnowflakeIdWorker :=
  { config := SnowflakeConfig.default, worker_id_shift := 12, timestamp_shift := 20,
    sequence_mask := 4095, twepoch := snowflakeEpochMillis, sequence := 0,
    last_timestamp := -1, worker_id := 7 }

/-- `demoWorker` after one successful call that committed millisecond
offset 100. -/
def demoWorker100 : SnowflakeIdWorker := { demoWorker with last_timestamp := 100 }

/-- C1 (counterexample): on one instance, with the clock stream
100, 95, 96, 100 (a regression of 5 ms tolerated by the 10 ms budget,
whose post-sleep re-read 96 has not caught up to the committed 100,
followed by the clock reaching 100 again), three sequential calls all
return Ok but the first and third return the same value — the values
are not pairwise distinct. -/
theorem C1_uniqueness_counterexample :
    (runCalls demoWorker [snowflakeEpochMillis + 100, snowflakeEpochMillis + 95,
        snowflakeEpochMillis + 96, snowflakeEpochMillis + 100] 3).1.length = 3 ∧
    okIds (runCalls demoWorker [snowflakeEpochMillis + 100, snowflakeEpochMillis + 95,
        snowflakeEpochMillis + 96, snowflakeEpochMillis + 100] 3).1 =
      [104886272, 100691968, 104886272] ∧
    ¬ (okIds (runCalls demoWorker [snowflakeEpochMillis + 100, snowflakeEpochMillis + 95,
        snowflakeEpochMillis + 96, snowflakeEpochMillis + 100] 3).1).Pairwise
        (fun a b => a ≠ b) := by
  refine ⟨by decide, by decide, ?_⟩
  have he : okIds (runCalls demoWorker [snowflakeEpochMillis + 100, snowflakeEpochMillis + 95,
      snowflakeEpochMillis + 96, snowflakeEpochMillis + 100] 3).1 =
      [104886272, 100691968, 104886272] := by decide
  intro h
  rw [he] at h
  exact (List.pairwise_cons.mp h).1 104886272 (by simp) rfl

/-- C1 (amended): on one well-formed default-configuration instance,
for every clock stream whose readings are inside the representable
window and in which every post-sleep re-read after a tolerated backward
jump has caught up to at least the committed `last_timestamp`
(`goodRun`), the values returned by the Ok calls of any finite
sequential run are pairwise distinct. -/
theorem C1_uniqueness (w : SnowflakeIdWorker) (rs : List Nat) (n : Nat)
    (hWF : WF w) (hwin : ∀ r ∈ rs, InWindow r) (hgood : goodRun w rs n = true) :
    (okIds (runCalls w rs n).1).Pairwise (fun a b => a ≠ b) := by
  have h := (runCalls_spec n w rs hWF hwin hgood).2.2.2.1
  haveI : IsTrans Nat (fun a b => a < b) := ⟨fun _ _ _ => Nat.lt_trans⟩
  exact (List.chain'_iff_pairwise.mp h).imp Nat.ne_of_lt

/-- Witness for C1: a concrete two-call run. -/
theorem C1_uniqueness_witness :
    WF demoWorker ∧
    (∀ r ∈ [snowflakeEpochMillis + 100, snowflakeEpochMillis + 101], InWindow r) ∧
    goodRun demoWorker [snowflakeEpochMillis + 100, snowflakeEpochMillis + 101] 2 = true ∧
    (okIds (runCalls demoWorker
        [snowflakeEpochMillis + 100, snowflakeEpochMillis + 101] 2).1).Pairwise
      (fun a b => a ≠ b) :=
  ⟨by decide, by decide, by decide,
    C1_uniqueness demoWorker [snowflakeEpochMillis + 100, snowflakeEpochMillis + 101] 2
      (by decide) (by decide) (by decide)⟩

/-- C2: on one well-formed default-configuration instance, over any
admissible clock stream (readings in the representable window, benign
post-sleep re-reads), the Ok values of a finite sequential run are
monotonically non-decreasing in call order, and `last_timestamp` is
monotonically non-decreasing along the whole run (the initial state and
every per-call post-state). -/
theorem C2_monotonic (w : SnowflakeIdWorker) (rs : List Nat) (n : Nat)
    (hWF : WF w) (hwin : ∀ r ∈ rs, InWindow r) (hgood : goodRun w rs n = true) :
    (okIds (runCalls w rs n).1).Pairwise (fun a b => a ≤ b) ∧
    List.Pairwise (fun w1 w2 => w1.last_timestamp ≤ w2.last_timestamp)
      (w :: (runCalls w rs n).1.map Prod.snd) := by
  obtain ⟨_, _, _, hchain, _, hlast⟩ := runCalls_spec n w rs hWF hwin hgood
  constructor
  · haveI : IsTrans Nat (fun a b => a < b) := ⟨fun _ _ _ => Nat.lt_trans⟩
    exact (List.chain'_iff_pairwise.mp hchain).imp le_of_lt
  · haveI : IsTrans SnowflakeIdWorker
        (fun w1 w2 => w1.last_timestamp ≤ w2.last_timestamp) :=
      ⟨fun _ _ _ h1 h2 => le_trans h1 h2⟩
    exact List.chain'_iff_pairwise.mp hlast

/-- Witness for C2: a concrete three-call run with a same-millisecond
repeat. -/
theorem C2_monotonic_witness :
    WF demoWorker ∧
    (∀ r ∈ [snowflakeEpochMillis + 100, snowflakeEpochMillis + 100,
        snowflakeEpochMillis + 103], InWindow r) ∧
    goodRun demoWorker [snowflakeEpochMillis + 100, snowflakeEpochMillis + 100,
        snowflakeEpochMillis + 103] 3 = true ∧
    ((okIds (runCalls demoWorker [snowflakeEpochMillis + 100, snowflakeEpochMillis + 100,
        snowflakeEpochMillis + 103] 3).1).Pairwise (fun a b => a ≤ b) ∧
      List.Pairwise (fun w1 w2 => w1.last_timestamp ≤ w2.last_timestamp)
        (demoWorker :: (runCalls demoWorker [snowflakeEpochMillis + 100,
            snowflakeEpochMillis + 100, snowflakeEpochMillis + 103] 3).1.map Prod.snd)) :=
  ⟨by decide, by decide, by decide,
    C2_monotonic demoWorker [snowflakeEpochMillis + 100, snowflakeEpochMillis + 100,
      snowflakeEpochMillis + 103] 3 (by decide) (by decide) (by decide)⟩

/-- C3: a clock reading strictly before `last_timestamp` with the gap
strictly above `max_backward_ms` makes `next_id` return a
`ClockBackward` error, with every field of the state unchanged, no
sleep, and only that reading consumed; a subsequent call with a
forward-moving clock (reading strictly past `last_timestamp`) succeeds
normally. -/
theorem C3_backward_beyond_tolerance (w : SnowflakeIdWorker) (d d2 : Nat)
    (rest rest2 : List Nat)
    (hws : w.worker_id_shift = 12) (hts : w.timestamp_shift = 20)
    (htw : w.twepoch = snowflakeEpochMillis) (hwid : w.worker_id < 256)
    (hlast : w.last_timestamp < 2 ^ 44)
    (hd : d < 2 ^ 44) (hlt : ((d : Nat) : Int) < w.last_timestamp)
    (hdiff : (w.config.max_backward_ms : Int) < w.last_timestamp - (d : Int))
    (hfwd : w.last_timestamp < ((d2 : Nat) : Int)) (hd2 : d2 < 2 ^ 44) :
    w.next_id ((snowflakeEpochMillis + d) :: rest) =
      some ⟨.error .ClockBackward, w, rest, []⟩ ∧
    w.next_id ((snowflakeEpochMillis + d2) :: rest2) =
      some ⟨.ok (encodeId d2 w.worker_id 0),
        { w with sequence := 0, last_timestamp := (d2 : Int) }, rest2, []⟩ := by
  constructor
  · have hwin : InWindow (snowflakeEpochMillis + d) :=
      ⟨Nat.le_add_right _ _, Nat.add_lt_add_left hd _⟩
    obtain ⟨htg, _, hcast⟩ := time_gen_window w _ htw hwin
    have hsub : snowflakeEpochMillis + d - snowflakeEpochMillis = d :=
      Nat.add_sub_cancel_left _ _
    rw [hsub] at htg hcast
    rw [SnowflakeIdWorker.next_id]
    simp only [htg, hcast]
    rw [if_pos hlt]
    have hdm : (w.last_timestamp - ((d : Nat) : Int)) % (2 ^ 64 : Int) =
        w.last_timestamp - ((d : Nat) : Int) :=
      Int.emod_eq_of_lt (by omega) (by omega)
    rw [hdm, if_neg (by omega)]
  · exact next_id_new_ms w d2 rest2 hws hts htw hwid hfwd hd2

/-- Witness for C3: from a state with `last_timestamp = 100`, a reading
50 ms past the epoch (a 50 ms regression against a 10 ms budget) errors
and leaves the state intact; a reading 200 ms past the epoch then
succeeds. -/
theorem C3_backward_beyond_tolerance_witness :
    ((50 : Nat) : Int) < demoWorker100.last_timestamp ∧
    (demoWorker100.config.max_backward_ms : Int) < demoWorker100.last_timestamp - (50 : Int) ∧
    demoWorker100.next_id [snowflakeEpochMillis + 50] =
      some ⟨.error .ClockBackward, demoWorker100, [], []⟩ ∧
    demoWorker100.next_id [snowflakeEpochMillis + 200] =
      some ⟨.ok (encodeId 200 7 0),
        { demoWorker100 with sequence := 0, last_timestamp := (200 : Int) }, [], []⟩ := by
  have h := C3_backward_beyond_tolerance demoWorker100 50 200 [] []
    rfl rfl rfl (by decide) (by decide) (by decide) (by decide) (by decide)
    (by decide) (by decide)
  exact ⟨by decide, by decide, h.1, h.2⟩

/-- C4 (counterexample): from a state whose previous successful call
committed millisecond 100, a reading at 95 (regression 5 ≤ 10) makes
the call sleep 6 ms and re-read; with the re-read at 96 — still before
the committed 100 — the call nevertheless succeeds, and the returned
ID's timestamp field is 96 < 100, violating the claimed
`timestamp(B) ≥ timestamp(previous)`. -/
theorem C4_tolerated_backward_counterexample :
    SnowflakeIdWorker.next_id demoWorker100
        [snowflakeEpochMillis + 95, snowflakeEpochMillis + 96] =
      some ⟨.ok 100691968, { demoWorker with sequence := 0, last_timestamp := 96 }, [], [6]⟩ ∧
    idTimestampField 100691968 = 96 ∧
    ¬ ((100 : Nat) ≤ idTimestampField 100691968) := by
  refine ⟨by decide, by decide, by decide⟩

/-- C4 (amended): a reading `d` strictly before `last_timestamp` with
regression within `max_backward_ms` makes the call sleep exactly
`diff + 1` ms and re-read the clock exactly once; provided the re-read
`d2` has moved strictly past `last_timestamp` (the outcome the sleep is
designed to produce), the call succeeds immediately, commits `d2`, and
the returned ID's timestamp field `d2` is at least the previously
committed timestamp. -/
theorem C4_tolerated_backward (w : SnowflakeIdWorker) (d d2 : Nat) (rest : List Nat)
    (hws : w.worker_id_shift = 12) (hts : w.timestamp_shift = 20)
    (htw : w.twepoch = snowflakeEpochMillis) (hwid : w.worker_id < 256)
    (hlast : w.last_timestamp < 2 ^ 44)
    (hd : d < 2 ^ 44) (hlt : ((d : Nat) : Int) < w.last_timestamp)
    (hdiff : w.last_timestamp - (d : Int) ≤ (w.config.max_backward_ms : Int))
    (hfwd : w.last_timestamp < ((d2 : Nat) : Int)) (hd2 : d2 < 2 ^ 44) :
    w.next_id ((snowflakeEpochMillis + d) :: (snowflakeEpochMillis + d2) :: rest) =
      some ⟨.ok (encodeId d2 w.worker_id 0),
        { w with sequence := 0, last_timestamp := (d2 : Int) },
        rest, [(w.last_timestamp - (d : Int)).toNat + 1]⟩ ∧
    idTimestampField (encodeId d2 w.worker_id 0) = d2 ∧
    w.last_timestamp ≤ ((d2 : Nat) : Int) := by
  refine ⟨?_, idTimestampField_encode d2 w.worker_id 0 hwid (Nat.zero_le _), le_of_lt hfwd⟩
  have hwin : InWindow (snowflakeEpochMillis + d) :=
    ⟨Nat.le_add_right _ _, Nat.add_lt_add_left hd _⟩
  have hwin2 : InWindow (snowflakeEpochMillis + d2) :=
    ⟨Nat.le_add_right _ _, Nat.add_lt_add_left hd2 _⟩
  obtain ⟨htg, _, hcast⟩ := time_gen_window w _ htw hwin
  obtain ⟨htg2, _, hcast2⟩ := time_gen_window w _ htw hwin2
  have hsub : snowflakeEpochMillis + d - snowflakeEpochMillis = d :=
    Nat.add_sub_cancel_left _ _
  have hsub2 : snowflakeEpochMillis + d2 - snowflakeEpochMillis = d2 :=
    Nat.add_sub_cancel_left _ _
  rw [hsub] at htg hcast
  rw [hsub2] at htg2 hcast2
  rw [SnowflakeIdWorker.next_id]
  simp only [htg, hcast]
  rw [if_pos hlt]
  have hdm : (w.last_timestamp - ((d : Nat) : Int)) % (2 ^ 64 : Int) =
      w.last_timestamp - ((d : Nat) : Int) :=
    Int.emod_eq_of_lt (by omega) (by omega)
  rw [hdm, if_pos (by omega)]
  simp only [htg2, hcast2]
  unfold SnowflakeIdWorker.afterClock
  rw [if_neg (by omega)]
  simp only [Option.some.injEq, StepOut.mk.injEq, Except.ok.injEq, and_true, true_and]
  exact assembleId_eq_encodeId { w with sequence := 0, last_timestamp := (d2 : Int) } (d2 : Int)
    hts hws hwid (Nat.zero_le _) (Int.natCast_nonneg _) (by exact_mod_cast hd2)

/-- Witness for C4: `last_timestamp = 100`, reading 95 (sleep 6 ms),
re-read 101: success committing 101. -/
theorem C4_tolerated_backward_witness :
    ((95 : Nat) : Int) < demoWorker100.last_timestamp ∧
    demoWorker100.last_timestamp - (95 : Int) ≤ (demoWorker100.config.max_backward_ms : Int) ∧
    demoWorker100.next_id [snowflakeEpochMillis + 95, snowflakeEpochMillis + 101] =
      some ⟨.ok (encodeId 101 7 0),
        { demoWorker100 with sequence := 0, last_timestamp := (101 : Int) }, [], [6]⟩ ∧
    idTimestampField (encodeId 101 7 0) = 101 ∧
    demoWorker100.last_timestamp ≤ ((101 : Nat) : Int) := by
  have h := C4_tolerated_backward demoWorker100 95 101 []
    rfl rfl rfl (by decide) (by decide) (by decide) (by decide) (by decide)
    (by decide) (by decide)
  exact ⟨by decide, by decide, h.1, h.2.1, h.2.2⟩

/-- C6: every value returned by a successful `next_id` call is exactly
`timestamp << (worker_id_bits + sequence_bits) | worker_id << sequence_bits | sequence`
(in wrapping `u64` arithmetic), computed from the committed
`last_timestamp`, the instance's `worker_id`, and the committed
`sequence`; the assembly is the total function `assembleId`, with no
failure mode. -/
theorem C6_id_assembly (w : SnowflakeIdWorker) (rs : List Nat)
    (hts : w.timestamp_shift = w.config.worker_id_bits + w.config.sequence_bits)
    (hws : w.worker_id_shift = w.config.sequence_bits)
    (out : StepOut) (hstep : w.next_id rs = some out)
    (id : Nat) (hok : out.result = .ok id) :
    id = ((((out.worker.last_timestamp % (2 ^ 64 : Int)).toNat <<<
            (w.config.worker_id_bits + w.config.sequence_bits)) % 2 ^ 64) |||
          ((out.worker.worker_id <<< w.config.sequence_bits) % 2 ^ 64)) |||
        out.worker.sequence := by
  obtain ⟨h1, hcfg, hwid, hsh, hwsh⟩ := next_id_ok_assemble w rs out hstep id hok
  rw [h1]
  unfold SnowflakeIdWorker.assembleId
  rw [hsh, hwsh, hts, hws]

/-- Witness for C6: the single call on the fresh instance at millisecond
offset 100 returns `100 << 20 | 7 << 12 | 0`. -/
theorem C6_id_assembly_witness :
    (104886272 : Nat) =
      (((((100 : Int) % (2 ^ 64 : Int)).toNat <<< (8 + 12)) % 2 ^ 64) |||
        ((7 <<< 12) % 2 ^ 64)) ||| 0 := by
  have h := C6_id_assembly demoWorker [snowflakeEpochMillis + 100] rfl rfl
    ⟨.ok 104886272, { demoWorker with sequence := 0, last_timestamp := (100 : Int) }, [], []⟩
    (by decide) 104886272 rfl
  exact h

/-- C9: a clock reading strictly before the fixed epoch makes `next_id`
return a `ConfigError` — not a `ClockBackward` error — producing no ID,
leaving the state unchanged and not sleeping. -/
theorem C9_pre_epoch_config_error (w : SnowflakeIdWorker) (r : Nat) (rest : List Nat)
    (h : r % 2 ^ 64 < w.twepoch) :
    w.next_id (r :: rest) = some ⟨.error .ConfigError, w, rest, []⟩ ∧
    SnowflakeError.ConfigError ≠ SnowflakeError.ClockBackward := by
  constructor
  · have htg : w.time_gen r = .error .ConfigError := by
      unfold SnowflakeIdWorker.time_gen
      rw [if_neg (by omega)]
    rw [SnowflakeIdWorker.next_id]
    simp only [htg]
  · intro hcontra
    exact SnowflakeError.noConfusion hcontra

/-- Witness for C9: a reading 5 ms after the Unix epoch (long before
the 2025 fixed epoch) yields a `ConfigError`. -/
theorem C9_pre_epoch_config_error_witness :
    (5 : Nat) % 2 ^ 64 < demoWorker.twepoch ∧
    demoWorker.next_id [5] = some ⟨.error .ConfigError, demoWorker, [], []⟩ :=
  ⟨by decide, (C9_pre_epoch_config_error demoWorker 5 [] (by decide)).1⟩

/-! ### C5: sequence rollover scenario -/

/-- The C5 clock stream: 4097 readings frozen at millisecond offset
1000, then one reading at 1001. -/
def c5Stream : List Nat :=
  List.replicate 4097 (snowflakeEpochMillis + 1000) ++ [snowflakeEpochMillis + 1001]

/-- `okIds` of a trace whose calls all returned Ok with the given
values. -/
theorem okIds_map_ok (l : List Nat) (f : Nat → Nat) (g : Nat → SnowflakeIdWorker) :
    okIds (l.map (fun j => (Except.ok (f j), g j))) = l.map f := by
  unfold okIds
  rw [List.filterMap_map]
  exact congrFun (List.filterMap_eq_map f) l

/-- Unfolding one successful call at the head of a run, with the output
components explicit. -/
theorem runCalls_cons_of (w : SnowflakeIdWorker) (rs : List Nat) (n m : Nat)
    (hn : n = m + 1) (res : Except SnowflakeError Nat) (w' : SnowflakeIdWorker)
    (rest sleeps : List Nat) (h : w.next_id rs = some ⟨res, w', rest, sleeps⟩) :
    runCalls w rs n =
      ((res, w') :: (runCalls w' rest m).1,
        (runCalls w' rest m).2.1, (runCalls w' rest m).2.2) := by
  subst hn
  simp [runCalls, h]

/-- A one-call run with a successful call. -/
theorem runCalls_one (w : SnowflakeIdWorker) (rs : List Nat)
    (res : Except SnowflakeError Nat) (w' : SnowflakeIdWorker)
    (rest sleeps : List Nat) (h : w.next_id rs = some ⟨res, w', rest, sleeps⟩) :
    runCalls w rs 1 = ([(res, w')], w', rest) := by
  simp [runCalls, h]

/-- `next_id_new_ms` with the generator state written out field by
field (constructor form), convenient for chaining concrete runs. -/
theorem next_id_new_ms' (cfg : SnowflakeConfig) (mask s : Nat) (last : Int) (wid d : Nat)
    (rs : List Nat) (hwid : wid < 256) (hlast : last < (d : Int)) (hd : d < 2 ^ 44) :
    SnowflakeIdWorker.next_id ⟨cfg, 12, 20, mask, snowflakeEpochMillis, s, last, wid⟩
        ((snowflakeEpochMillis + d) :: rs) =
      some ⟨.ok (encodeId d wid 0),
        ⟨cfg, 12, 20, mask, snowflakeEpochMillis, 0, (d : Int), wid⟩, rs, []⟩ :=
  next_id_new_ms ⟨cfg, 12, 20, mask, snowflakeEpochMillis, s, last, wid⟩ d rs
    rfl rfl rfl hwid hlast hd

/-- `next_id_wrap` in constructor form. -/
theorem next_id_wrap' (cfg : SnowflakeConfig) (s d d2 wid : Nat) (rs : List Nat)
    (hwid : wid < 256) (hs : s = 4095) (hdd : d < d2) (hd2 : d2 < 2 ^ 44) :
    SnowflakeIdWorker.next_id ⟨cfg, 12, 20, 4095, snowflakeEpochMillis, s, (d : Int), wid⟩
        ((snowflakeEpochMillis + d) :: (snowflakeEpochMillis + d2) :: rs) =
      some ⟨.ok (encodeId d2 wid 0),
        ⟨cfg, 12, 20, 4095, snowflakeEpochMillis, 0, (d2 : Int), wid⟩, rs, []⟩ :=
  next_id_wrap ⟨cfg, 12, 20, 4095, snowflakeEpochMillis, s, (d : Int), wid⟩ d d2 rs
    rfl rfl rfl rfl hwid rfl hs hdd hd2

/-- `runCalls_same_ms` in constructor form. -/
theorem runCalls_same_ms' (k m : Nat) (cfg : SnowflakeConfig) (s d wid : Nat)
    (rs : List Nat) (hwid : wid < 256) (hd : d < 2 ^ 44) (hs : s + k ≤ 4095) :
    runCalls ⟨cfg, 12, 20, 4095, snowflakeEpochMillis, s, (d : Int), wid⟩
        (List.replicate k (snowflakeEpochMillis + d) ++ rs) (k + m) =
      ((List.range k).map (fun j => (Except.ok (encodeId d wid (s + j + 1)),
          ⟨cfg, 12, 20, 4095, snowflakeEpochMillis, s + j + 1, (d : Int), wid⟩)) ++
        (runCalls ⟨cfg, 12, 20, 4095, snowflakeEpochMillis, s + k, (d : Int), wid⟩ rs m).1,
       (runCalls ⟨cfg, 12, 20, 4095, snowflakeEpochMillis, s + k, (d : Int), wid⟩ rs m).2) :=
  runCalls_same_ms k m ⟨cfg, 12, 20, 4095, snowflakeEpochMillis, s, (d : Int), wid⟩ d rs
    rfl rfl rfl rfl hwid rfl hd hs

/-- The exact Ok-value list of the C5 run: the 4096 same-millisecond
calls return the IDs with timestamp field 1000 and sequence fields
0..4095 in order, and the 4097th call returns the ID with timestamp
field 1001 and sequence field 0. -/
theorem C5_rollover_ids :
    okIds (runCalls demoWorker c5Stream 4097).1 =
      (List.range 4096).map (fun s => encodeId 1000 7 s) ++ [encodeId 1001 7 0] := by
  show okIds (runCalls ⟨SnowflakeConfig.default, 12, 20, 4095, snowflakeEpochMillis, 0, -1, 7⟩
      c5Stream 4097).1 =
    (List.range 4096).map (fun s => encodeId 1000 7 s) ++ [encodeId 1001 7 0]
  have h1 := next_id_new_ms' SnowflakeConfig.default 4095 0 (-1) 7 1000
    (List.replicate 4096 (snowflakeEpochMillis + 1000) ++ [snowflakeEpochMillis + 1001])
    (by decide) (by decide) (by decide)
  have hstream : c5Stream = (snowflakeEpochMillis + 1000) ::
      (List.replicate 4096 (snowflakeEpochMillis + 1000) ++ [snowflakeEpochMillis + 1001]) := by
    have h0 : c5Stream = List.replicate (4096 + 1) (snowflakeEpochMillis + 1000) ++
        [snowflakeEpochMillis + 1001] := rfl
    rw [h0, List.replicate_succ, List.cons_append]
  rw [hstream, runCalls_cons_of _ _ 4097 4096 rfl _ _ _ _ h1]
  have hsh : List.replicate 4096 (snowflakeEpochMillis + 1000) ++ [snowflakeEpochMillis + 1001] =
      List.replicate 4095 (snowflakeEpochMillis + 1000) ++
        ((snowflakeEpochMillis + 1000) :: [snowflakeEpochMillis + 1001]) := by
    rw [show (4096 : Nat) = 4095 + 1 from rfl, List.replicate_succ', List.append_assoc]
    rfl
  have hmid := runCalls_same_ms' 4095 1 SnowflakeConfig.default 0 1000 7
    ((snowflakeEpochMillis + 1000) :: [snowflakeEpochMillis + 1001])
    (by decide) (by decide) (by decide)
  rw [hsh, show (4096 : Nat) = 4095 + 1 from rfl, hmid]
  have hwrap := next_id_wrap' SnowflakeConfig.default (0 + 4095) 1000 1001 7 []
    (by decide) (by decide) (by decide) (by decide)
  rw [runCalls_one _ _ _ _ _ _ hwrap]
  have hcons : ∀ (a : Nat) (w : SnowflakeIdWorker)
      (tr : List (Except SnowflakeError Nat × SnowflakeIdWorker)),
      okIds ((Except.ok a, w) :: tr) = a :: okIds tr := fun a w tr => rfl
  have hnil : okIds [] = [] := rfl
  have happ : ∀ (tr1 tr2 : List (Except SnowflakeError Nat × SnowflakeIdWorker)),
      okIds (tr1 ++ tr2) = okIds tr1 ++ okIds tr2 :=
    fun tr1 tr2 => List.filterMap_append tr1 tr2 _
  rw [hcons, happ, okIds_map_ok (List.range 4095)
    (fun j => encodeId 1000 7 (0 + j + 1))
    (fun j => (⟨SnowflakeConfig.default, 12, 20, 4095, snowflakeEpochMillis, 0 + j + 1,
      ((1000 : Nat) : Int), 7⟩ : SnowflakeIdWorker)), hcons, hnil]
  rw [List.range_succ_eq_map 4095]
  simp only [List.map_cons, List.map_map]
  have hfun : List.map (fun j => encodeId 1000 7 (0 + j + 1)) (List.range 4095) =
      List.map ((fun s => encodeId 1000 7 s) ∘ Nat.succ) (List.range 4095) :=
    List.map_congr_left (fun j hj => by
      show encodeId 1000 7 (0 + j + 1) = encodeId 1000 7 (Nat.succ j)
      rw [Nat.zero_add])
  rw [hfun, List.cons_append]

/-- A run of at most `n` calls produces at most `n` trace entries. -/
theorem runCalls_length_le (n : Nat) : ∀ (w : SnowflakeIdWorker) (rs : List Nat),
    (runCalls w rs n).1.length ≤ n := by
  induction n with
  | zero => intro w rs; simp [runCalls]
  | succ n ih =>
    intro w rs
    cases hnx : w.next_id rs with
    | none => simp [runCalls, hnx]
    | some out =>
      simp only [runCalls, hnx, List.length_cons]
      exact Nat.succ_le_succ (ih out.worker out.rest)

/-- C5: under the default configuration, with the clock frozen at
millisecond offset 1000 and then advancing to 1001, a run of 4097
sequential calls returns Ok on every call; the Ok values are exactly
the IDs with timestamp field 1000 and sequence fields 0..4095 (each
exactly once, in order) followed by the ID with timestamp field 1001
and sequence field 0 — so the 4097th call's timestamp field 1001 is
strictly greater than the first call's 1000. -/
theorem C5_sequence_rollover :
    okIds (runCalls demoWorker c5Stream 4097).1 =
      (List.range 4096).map (fun s => encodeId 1000 7 s) ++ [encodeId 1001 7 0] ∧
    (runCalls demoWorker c5Stream 4097).1.length = 4097 ∧
    (List.range 4096).map (fun s => idSequenceField (encodeId 1000 7 s)) =
      List.range 4096 ∧
    idTimestampField (encodeId 1000 7 0) = 1000 ∧
    idTimestampField (encodeId 1001 7 0) = 1001 ∧
    (1000 : Nat) < 1001 := by
  refine ⟨C5_rollover_ids, ?_, ?_, ?_, ?_, by norm_num⟩
  · have h1 : (okIds (runCalls demoWorker c5Stream 4097).1).length = 4097 := by
      rw [C5_rollover_ids]
      simp
    have h2 := runCalls_length_le 4097 demoWorker c5Stream
    have h3 : (okIds (runCalls demoWorker c5Stream 4097).1).length ≤
        (runCalls demoWorker c5Stream 4097).1.length :=
      List.length_filterMap_le _ _
    omega
  · have h : ∀ s ∈ List.range 4096, idSequenceField (encodeId 1000 7 s) = s :=
      fun s hs => idSequenceField_encode 1000 7 s (by norm_num)
        (by have := List.mem_range.mp hs; omega)
    rw [List.map_congr_left h, List.map_id']
  · exact idTimestampField_encode 1000 7 0 (by norm_num) (by norm_num)
  · exact idTimestampField_encode 1001 7 0 (by norm_num) (by norm_num)

/-! ### Worker identity resolution (construction time) -/

/-- Rust's `str::parse::<u8>()` (`u8::from_str`): an optional leading
`+`, then one or more ASCII digits and nothing else; values above 255
overflow to an error.  `none` models every parse failure. -/
def parseU8 (s : String) : Option Nat :=
  let digits := match s.toList with
    | '+' :: rest => rest
    | cs => cs
  if digits = [] then none
  else if digits.all (fun c => c.isDigit) then
    let v := digits.foldl (fun a c => a * 10 + (c.toNat - 48)) 0
    if v ≤ 255 then some v else none
  else none

/-- `SnowflakeIdWorker::parse_config` (lines 206-243): line-oriented
scan for `datacenter_id` and `machine_id`; blank lines and `#` comments
skipped; a matching line re-assigns the value (possibly to `none` when
its right-hand side does not parse); if both are present the worker id
is `(dc & 0x03) << 6 | (m & 0x3F)`.  The Rust method returns
`Ok(...)` on every path, so it is modelled as `Option Nat`. -/
def parse_config (content : String) : Option Nat := Id.run do
  let mut datacenter_id : Option Nat := none
  let mut machine_id : Option Nat := none
  for line0 in content.splitOn ("\n") do
    let line := line0.trim
    if line.isEmpty || line.startsWith ("#") then
      continue
    if line.startsWith ("datacenter_id") then
      match (line.splitOn ("=")).get? 1 with
      | some v => datacenter_id := parseU8 v.trim
      | none => pure ()
    else if line.startsWith ("machine_id") then
      match (line.splitOn ("=")).get? 1 with
      | some v => machine_id := parseU8 v.trim
      | none => pure ()
  match datacenter_id, machine_id with
  | some dc, some m => return some (((dc &&& 0x03) <<< 6) ||| (m &&& 0x3F))
  | _, _ => return none

/-- `SnowflakeIdWorker::try_config_mapping` (lines 185-202): the files
at the two well-known paths, in priority order, each `none` when
unreadable; the first readable file is parsed and decides (even when it
parses to nothing).  The Rust method returns `Ok(...)` on every path. -/
def try_config_mapping : List (Option String) → Option Nat
  | [] => none
  | some content :: _ => parse_config content
  | none :: rest => try_config_mapping rest

/-- An IPv4 address as its four octets.  `UdpSocket::bind("0.0.0.0:0")`
creates an IPv4 socket, so a successful `local_addr()` is always an
IPv4 address; the UDP probe outcome is modelled as `Option Ipv4`
(`none` for any bind/connect/local_addr failure). -/
structure Ipv4 where
  a : Nat
  b : Nat
  c : Nat
  d : Nat
  deriving DecidableEq, Repr

/-- `SnowflakeIdWorker::get_local_ip` (lines 275-286): the probed local
address on success, loopback 127.0.0.1 on any failure; never an
error. -/
def get_local_ip (udp : Option Ipv4) : Ipv4 :=
  match udp with
  | some addr => addr
  | none => ⟨127, 0, 0, 1⟩

/-- `SnowflakeIdWorker::generate_ip_based_worker_id` (lines 247-271):
`get_local_ip` always yields an IPv4 address (see `get_local_ip`), so
the `Ipv4Addr` parse succeeds and the worker id is
`(octets[2] & 0x0F) << 4 | (octets[3] & 0x0F)`; the hostname fallback
(reachable only on a non-IPv4 local address string) is dead in this
model, so the function never fails. -/
def generate_ip_based_worker_id (udp : Option Ipv4) : Except SnowflakeError Nat :=
  let addr := get_local_ip udp
  .ok (((addr.c &&& 0x0F) <<< 4) ||| (addr.d &&& 0x0F))

/-- `SnowflakeIdWorker::init_worker_id` (lines 157-181): the
`SNOWFLAKE_WORKER_ID` environment variable first (used only when it
parses as a `u8`), then the config-file mapping, then the IP-based
fallback. -/
def init_worker_id (env : Option String) (files : List (Option String))
    (udp : Option Ipv4) : Except SnowflakeError Nat :=
  match env with
  | some s =>
    match parseU8 s with
    | some wid => .ok wid
    | none =>
      match try_config_mapping files with
      | some wid => .ok wid
      | none => generate_ip_based_worker_id udp
  | none =>
    match try_config_mapping files with
    | some wid => .ok wid
    | none => generate_ip_based_worker_id udp

/-- The epoch computation of `SnowflakeIdWorker::new` (lines 126-133),
modelled from chrono's documented behaviour:
`FixedOffset::east_opt(8 * 3600)` is `Some` (the offset is within a
day) and `with_ymd_and_hms(2025, 3, 8, 0, 0, 0)` on a fixed offset is
`LocalResult::Single`, so the computation always succeeds, with the
value `snowflakeEpochMillis`. -/
def computeTwepoch : Except SnowflakeError Nat := .ok snowflakeEpochMillis

/-- `SnowflakeIdWorker::new` (lines 115-150): derive the shift/mask
fields from the configuration, compute the epoch, resolve the worker
identity, and build the initial state (`sequence = 0`,
`last_timestamp = -1`). -/
def SnowflakeIdWorker.new (config : Option SnowflakeConfig) (env : Option String)
    (files : List (Option String)) (udp : Option Ipv4) :
    Except SnowflakeError SnowflakeIdWorker :=
  let config := config.getD SnowflakeConfig.default
  let worker_id_shift := config.sequence_bits
  let timestamp_shift := config.worker_id_bits + config.sequence_bits
  let sequence_mask := (1 <<< config.sequence_bits) - 1
  match computeTwepoch with
  | .error e => .error e
  | .ok twepoch =>
    match init_worker_id env files udp with
    | .error e => .error e
    | .ok wid =>
      .ok { config := config, worker_id_shift := worker_id_shift,
            timestamp_shift := timestamp_shift, sequence_mask := sequence_mask,
            twepoch := twepoch, sequence := 0, last_timestamp := -1, worker_id := wid }

/-- Identity resolution is total: some strategy always produces a
worker id. -/
theorem init_worker_id_ok (env : Option String) (files : List (Option String))
    (udp : Option Ipv4) : ∃ wid, init_worker_id env files udp = .ok wid := by
  cases env with
  | none =>
    simp only [init_worker_id]
    cases h : try_config_mapping files with
    | some wid => simp only [h]; exact ⟨wid, rfl⟩
    | none => simp only [h]; exact ⟨_, rfl⟩
  | some s =>
    simp only [init_worker_id]
    cases hp : parseU8 s with
    | some wid => simp only [hp]; exact ⟨wid, rfl⟩
    | none =>
      simp only [hp]
      cases h : try_config_mapping files with
      | some wid => simp only [h]; exact ⟨wid, rfl⟩
      | none => simp only [h]; exact ⟨_, rfl⟩

/-- C7: construction never fails: for every combination of
environment-variable, config-file and network-probe outcomes, identity
resolution succeeds (the third strategy is total) and the fixed-epoch
computation succeeds, so `SnowflakeIdWorker::new` returns Ok — the only
error source `new` even checks is the epoch computation. -/
theorem C7_construction_never_fails (config : Option SnowflakeConfig)
    (env : Option String) (files : List (Option String)) (udp : Option Ipv4) :
    ∃ w, SnowflakeIdWorker.new config env files udp = .ok w := by
  unfold SnowflakeIdWorker.new computeTwepoch
  obtain ⟨wid, hwid⟩ := init_worker_id_ok env files udp
  rw [hwid]
  exact ⟨_, rfl⟩

/-- C10: when `SNOWFLAKE_WORKER_ID` is present but does not parse as an
unsigned 8-bit integer, construction does not use it and does not fail:
identity resolution behaves exactly as if the variable were absent,
falling through to the config-file and then IP-based strategies. -/
theorem C10_env_var_fallthrough (s : String) (files : List (Option String))
    (udp : Option Ipv4) (h : parseU8 s = none) :
    init_worker_id (some s) files udp = init_worker_id none files udp ∧
    ∃ wid, init_worker_id (some s) files udp = .ok wid := by
  have heq : init_worker_id (some s) files udp = init_worker_id none files udp := by
    simp only [init_worker_id, h]
  exact ⟨heq, heq ▸ init_worker_id_ok none files udp⟩

/-- Witness for C10: the value "300" overflows `u8`, so resolution
falls through (here to the IP fallback, worker id 16 + 4 = 20 from
192.168.1.100). -/
theorem C10_env_var_fallthrough_witness :
    parseU8 ("300") = none ∧
    init_worker_id (some ("300")) [none, none] (some ⟨192, 168, 1, 100⟩) =
      init_worker_id none [none, none] (some ⟨192, 168, 1, 100⟩) ∧
    init_worker_id (some ("300")) [none, none] (some ⟨192, 168, 1, 100⟩) = .ok 20 := by
  have h := C10_env_var_fallthrough ("300") [none, none] (some ⟨192, 168, 1, 100⟩)
    (by decide)
  exact ⟨by decide, h.1, by decide⟩

/-! ### Global configuration and shared worker (concurrency wrapper) -/

/-- The process-wide state: `GLOBAL_CONFIG` and `GLOBAL_WORKER`
(lines 379-389).  The shared worker is constructed once with
`SnowflakeIdWorker::new(None)`; the mutex is not modelled — in this
embedding every call holds the state exclusively by construction. -/
structure GlobalState where
  global_config : SnowflakeConfig
  global_worker : SnowflakeIdWorker
  deriving Repr

/-- `get_next_id` (lines 403-406): lock the shared worker and call
`next_id` on it, returning the outcome, the updated process state and
the rest of the clock stream. -/
def get_next_id (g : GlobalState) (rs : List Nat) :
    Option (Except SnowflakeError Nat × GlobalState × List Nat) :=
  match g.global_worker.next_id rs with
  | none => none
  | some out => some (out.result, { g with global_worker := out.worker }, out.rest)

/-- `set_global_config` (lines 414-416): overwrite the global
configuration object; the already-constructed shared worker is not
touched. -/
def set_global_config (g : GlobalState) (config : SnowflakeConfig) : GlobalState :=
  { g with global_config := config }

/-- C8: `set_global_config` leaves the already-constructed shared
worker unmodified — every field of that instance is unchanged, and any
subsequent `get_next_id` call returns exactly the same value (and the
same updated worker) as it would have without the configuration
update. -/
theorem C8_set_global_config_frame (g : GlobalState) (config : SnowflakeConfig)
    (rs : List Nat) :
    (set_global_config g config).global_worker = g.global_worker ∧
    get_next_id (set_global_config g config) rs =
      (get_next_id g rs).map
        (fun x => (x.1, set_global_config x.2.1 config, x.2.2)) := by
  refine ⟨rfl, ?_⟩
  unfold get_next_id set_global_config
  cases h : g.global_worker.next_id rs with
  | none => simp [h]
  | some out => simp [h]
